import Mathlib

/-!
A shallow embedding of the `tlbf` crate (`src/lib.rs`): type-level bitflags.

A declared flag group generates a container struct wrapping an unsigned
integer of a caller-chosen width, one zero-size marker struct per flag
(bit positions assigned sequentially from 0 in declaration order), and the
library provides the generic `Or<A, B>` combinator.  All three implement
the `SetMember` trait.  We model container values by the natural number
held in the wrapped integer (the bitwise operations `&&&`, `|||`, `^^^`
used by the code never leave the range of the chosen width, so no
wrap-around has to be modelled), and a `SetMember` value by a tree whose
leaves are container values and marker indices and whose inner nodes are
`Or` combinators.  Since `Or<A, B>` is a zero-size phantom type whose
behaviour only consults `A::default()` and `B::default()`, an `or a b`
node carries the default values of the two type arguments.
-/

namespace Tlbf

/-- A value implementing the `SetMember` trait: a materialized container
(the generated `$flags_name($repr)` struct holding its underlying
integer), the generated zero-size marker struct of the flag with
declaration index `i`, or the zero-size combinator `Or<A, B>`,
represented by the default values of its two type arguments. -/
inductive Member where
  | container (v : Nat)
  | marker (i : Nat)
  | or (a b : Member)
deriving DecidableEq, Repr

/-- `$vis const $name: Self = Self(1 << ($value));` — the named container
constant generated for the flag with declaration index `i`. -/
def flagConst (i : Nat) : Nat := 1 <<< i

/-- `SetMember::to_set`.  Container: `(*self).into()` (the identity
conversion).  Marker: `self.into()`, i.e. the constant `Self::Set::$name`.
`Or<A, B>`: `A::default_set() | B::default_set()`. -/
def to_set : Member → Nat
  | .container v => v
  | .marker i => flagConst i
  | .or a b => to_set a ||| to_set b

/-- `SetMember::eq_set`.  Container: `self == set` (derived `PartialEq` on
the wrapped integer).  Marker: `set == &Self::Set::$name`.  `Or<A, B>`:
`&Self::default_set() == set` where `Self::default_set()` is the default
union `A::default_set() | B::default_set()`. -/
def eq_set : Member → Nat → Bool
  | .container v, s => v == s
  | .marker i, s => s == flagConst i
  | .or a b, s => to_set (.or a b) == s

/-- `SetMember::in_set`.  Container: `set.0 & self.0 == self.0`.  Marker:
`*set & Self::Set::$name == Self::Set::$name`.  `Or<A, B>`:
`A::default().in_set(set) || B::default().in_set(set)`. -/
def in_set : Member → Nat → Bool
  | .container v, s => s &&& v == v
  | .marker i, s => s &&& flagConst i == flagConst i
  | .or a b, s => in_set a s || in_set b s

/-- `SetMember::and_set` (default-provided method):
`self.to_set() | other.to_set()`. -/
def and_set (self other : Member) : Nat := to_set self ||| to_set other

/-- `$flags_name::is_empty`: `self.0 == 0`. -/
def is_empty (v : Nat) : Bool := v == 0

/-- `$flags_name::contains`: delegates to `other.in_set(self)`. -/
def contains (v : Nat) (other : Member) : Bool := in_set other v

/-- `$flags_name::equals`: delegates to `other.eq_set(self)`. -/
def equals (v : Nat) (other : Member) : Bool := eq_set other v

/-- `$flags_name::intersects`: `self.0 & other.to_set().0 > 0`. -/
def intersects (v : Nat) (other : Member) : Bool :=
  decide (v &&& to_set other > 0)

/-- The accumulating pass of the `tlbf!` declaration rules: the head flag
is recorded as `$first = $value` and the remaining flags are processed
with `($value + 1)`; the entry rule starts the accumulator at `(0)`. -/
def assignIndices : List String → Nat → List (String × Nat)
  | [], _ => []
  | x :: xs, v => (x, v) :: assignIndices xs (v + 1)

/-- The left-associated `|`-reduction `a0 | a1 | ...` that
`$(Self::$name)|*` expands to (for a non-empty list of operands; a
declaration with zero flags does not compile, the `0` result for `[]`
lies outside the modelled domain). -/
def orReduce : List Nat → Nat
  | [] => 0
  | x :: xs => xs.foldl (fun acc y => acc ||| y) x

/-- `$flags_name::all()`: the `|`-reduction of the `n` generated flag
constants. -/
def all (n : Nat) : Nat := orReduce ((List.range n).map flagConst)

/-- `BitOr for $flags_name`: `Self(self.0 | rhs.to_set().0)`. -/
def bitor (v : Nat) (rhs : Member) : Nat := v ||| to_set rhs

/-- `BitAnd for $flags_name`: `Self(self.0 & rhs.to_set().0)`. -/
def bitand (v : Nat) (rhs : Member) : Nat := v &&& to_set rhs

/-- `BitXor for $flags_name`: `Self(self.0 ^ rhs.to_set().0)`. -/
def bitxor (v : Nat) (rhs : Member) : Nat := v ^^^ to_set rhs

/-- `BitOrAssign for $flags_name`: `self.0 |= rhs.to_set().0`, modelled as
the value the receiver holds afterwards. -/
def bitor_assign (v : Nat) (rhs : Member) : Nat := v ||| to_set rhs

/-- `BitAndAssign for $flags_name`: `self.0 &= rhs.to_set().0`. -/
def bitand_assign (v : Nat) (rhs : Member) : Nat := v &&& to_set rhs

/-- `BitXorAssign for $flags_name`: `self.0 ^= rhs.to_set().0`. -/
def bitxor_assign (v : Nat) (rhs : Member) : Nat := v ^^^ to_set rhs

/-- `BitOr for $name` (marker): `$flags_name::$name | rhs.to_set()`, which
routes through the container `BitOr` with the materialized right-hand
side. -/
def marker_bitor (i : Nat) (rhs : Member) : Nat :=
  bitor (flagConst i) (.container (to_set rhs))

/-- `PartialEq<T> for $name` (marker): `$flags_name::$name == other.to_set()`. -/
def marker_eq (i : Nat) (rhs : Member) : Bool := flagConst i == to_set rhs

/-- The value `x | y` evaluates to, for the members that have a `BitOr`
implementation with themselves as left operand: containers and markers do,
the `Or` combinator does not. -/
def bitOrMember : Member → Member → Option Nat
  | .container v, rhs => some (bitor v rhs)
  | .marker i, rhs => some (marker_bitor i rhs)
  | .or _ _, _ => none

/-- Whether a member is an `Or` combinator. -/
def isOr : Member → Bool
  | .or _ _ => true
  | _ => false

/-- The leaf members (containers and markers) of a possibly nested
combinator tree, left to right. -/
def leaves : Member → List Member
  | .or a b => leaves a ++ leaves b
  | .container v => [.container v]
  | .marker i => [.marker i]

/-- The `Color: u64 { Red, Green, Blue }` group of the crate's doc test:
`Red` is declared first. -/
def Red : Member := .marker 0

/-- Second declared flag of the `Color` group. -/
def Green : Member := .marker 1

/-- Third declared flag of the `Color` group. -/
def Blue : Member := .marker 2

/-- A term produced by macro expansion in the `tyflags!` output position:
one of the input expressions (identified by its position in the argument
list), the combinator `$crate::Or<a, b>`, or a call of the macro with the
given name on the given arguments. -/
inductive TyTerm where
  | arg (i : Nat)
  | orOf (a b : TyTerm)
  | call (name : String) (args : List TyTerm)

/-- One step of `tyflags!` by its two rules: a single expression is
returned unchanged, and two or more expressions expand to
`$crate::Or<$first, $crate::type_join!(rest)>`.  No rule matches an empty
argument list. -/
def tyflags_expand : List TyTerm → Option TyTerm
  | [e] => some e
  | e :: rest => some (.orOf e (.call "type_join" rest))
  | [] => none

/-- The names `lib.rs` defines with `macro_rules!` (both `#[macro_export]`),
i.e. the only macro names resolvable through `$crate::`. -/
def crateExportNames : List String := ["tlbf", "tyflags"]

/-- Modelled from the spec: §4.5 says a single expression is returned
unchanged and two or more produce the fully right-associated nesting
`Or<first, Or<second, Or<third, ...>>>`. -/
def tyflags_spec : List TyTerm → Option TyTerm
  | [e] => some e
  | e :: rest => (tyflags_spec rest).map (TyTerm.orOf e)
  | [] => none

/- ## Helper lemmas -/

/-- `1 << i` is the `i`-th power of two. -/
theorem flagConst_eq_pow (i : Nat) : flagConst i = 2 ^ i := by
  rw [flagConst, Nat.shiftLeft_eq, Nat.one_mul]

/-- Masking with a power of two leaves it unchanged exactly on the numbers
whose corresponding bit is set. -/
theorem land_pow_beq (s i : Nat) : (s &&& 2 ^ i == 2 ^ i) = s.testBit i := by
  rcases hb : s.testBit i with _ | _
  · simp only [beq_eq_false_iff_ne, ne_eq]
    intro he
    have h2 := congrArg (fun t => t.testBit i) he
    simp [Nat.testBit_land, Nat.testBit_two_pow_self, hb] at h2
  · simp only [beq_iff_eq]
    apply Nat.eq_of_testBit_eq
    intro k
    by_cases hk : i = k
    · subst hk
      simp [Nat.testBit_land, Nat.testBit_two_pow_self, hb]
    · simp [Nat.testBit_land, Nat.testBit_two_pow_of_ne hk]

/-- `s &&& v = v` says exactly that every bit of `v` is a bit of `s`. -/
theorem land_eq_right_iff (s v : Nat) :
    s &&& v = v ↔ ∀ k, v.testBit k = true → s.testBit k = true := by
  constructor
  · intro h k hk
    have h2 := congrArg (fun t => t.testBit k) h
    simp only [Nat.testBit_land, hk, Bool.and_true] at h2
    exact h2
  · intro h
    apply Nat.eq_of_testBit_eq
    intro k
    rw [Nat.testBit_land]
    cases hv : v.testBit k with
    | false => simp [hv]
    | true => simp [hv, h k hv]

/-- Folding unions over a list commutes with the accumulator. -/
theorem foldl_lor_acc (l : List Member) (acc : Nat) :
    l.foldl (fun a m => a ||| to_set m) acc
      = acc ||| l.foldl (fun a m => a ||| to_set m) 0 := by
  induction l generalizing acc with
  | nil => simp
  | cons x xs ih =>
    simp only [List.foldl_cons]
    rw [ih (acc ||| to_set x), ih (0 ||| to_set x)]
    simp [Nat.lor_assoc]

/-- The left-associated reduction peels its last operand. -/
theorem orReduce_append (l : List Nat) (x : Nat) :
    orReduce (l ++ [x]) = orReduce l ||| x := by
  cases l with
  | nil => simp [orReduce]
  | cons y ys => simp [orReduce, List.foldl_append]

/-- `all` grows by the next flag constant. -/
theorem all_succ (n : Nat) : all (n + 1) = all n ||| flagConst n := by
  rw [all, List.range_succ, List.map_append, List.map_cons, List.map_nil,
    orReduce_append, all]

/-- The bits of `all n` are exactly the first `n` positions. -/
theorem all_testBit (n k : Nat) : (all n).testBit k = decide (k < n) := by
  induction n with
  | zero => simp [all, orReduce]
  | succ n ih =>
    rw [all_succ, Nat.testBit_lor, ih, flagConst_eq_pow]
    by_cases h : n = k
    · subst h
      simp [Nat.testBit_two_pow_self, Nat.lt_succ_self]
    · rw [Nat.testBit_two_pow_of_ne h, Bool.or_false, decide_eq_decide]
      omega

/-- The accumulator pass pairs the flag at position `i` with index
`v + i`. -/
theorem assignIndices_get (names : List String) (v i : Nat) :
    (assignIndices names v)[i]? = names[i]?.map (fun x => (x, v + i)) := by
  induction names generalizing v i with
  | nil => simp [assignIndices]
  | cons x xs ih =>
    cases i with
    | zero => simp [assignIndices]
    | succ i =>
      simp only [assignIndices, List.getElem?_cons_succ, ih (v + 1) i]
      rw [show v + 1 + i = v + (i + 1) from by omega]

/- ## Claims -/

/-- C1: `Or<A, B>::default().in_set(&set)` is the logical OR of the two
sub-members' own `in_set` tests, not the subset test of the combinator's
full union: on the `Or<Red, Green>` combinator it accepts the container
holding only `Red` (where the subset test of the union `Red|Green` would
say false) and rejects the container holding only `Blue`. -/
theorem C1_or_in_set_is_or_of_parts :
    (∀ a b : Member, ∀ s : Nat, in_set (.or a b) s = (in_set a s || in_set b s))
  ∧ in_set (.or Red Green) (to_set Red) = true
  ∧ in_set (.or Red Green) (to_set Blue) = false
  ∧ in_set (.container (to_set (.or Red Green))) (to_set Red) = false :=
  ⟨fun _ _ _ => rfl, by decide, by decide, by decide⟩

/-- C2: `Or<A, B>::default().eq_set(&set)` holds exactly when `set` equals
the default union `A::default().to_set() | B::default().to_set()`
bit-for-bit; the strict superset `7` of `Red|Green = 3` is rejected. -/
theorem C2_or_eq_set_is_default_union_equality :
    (∀ a b : Member, ∀ s : Nat,
        eq_set (.or a b) s = true ↔ s = (to_set a ||| to_set b))
  ∧ eq_set (.or Red Green) (to_set Red ||| to_set Green) = true
  ∧ eq_set (.or Red Green) 7 = false := by
  refine ⟨fun a b s => ?_, by decide, by decide⟩
  simp only [eq_set, to_set, beq_iff_eq]
  exact eq_comm

/-- C2 witness: applying the equivalence at `Or<Red, Green>` and the
container value `3`. -/
theorem C2_or_eq_set_is_default_union_equality_witness :
    eq_set (.or Red Green) 3 = true :=
  (C2_or_eq_set_is_default_union_equality.1 Red Green 3).mpr (by decide)

/-- C3: an `Or` combinator's `to_set()` is the union of its two arguments'
default sets, and for arbitrarily deep nestings it equals the flat
bitwise union of all its leaf members' sets. -/
theorem C3_or_to_set_is_flat_union :
    (∀ a b : Member, to_set (.or a b) = to_set a ||| to_set b)
  ∧ (∀ m : Member,
        to_set m = (leaves m).foldl (fun acc l => acc ||| to_set l) 0) := by
  refine ⟨fun _ _ => rfl, fun m => ?_⟩
  induction m with
  | container v => simp [leaves, to_set]
  | marker i => simp [leaves, to_set]
  | or a b iha ihb =>
    show to_set a ||| to_set b = (leaves a ++ leaves b).foldl _ 0
    rw [List.foldl_append, ← iha, foldl_lor_acc, ← ihb]

/-- C4: container `in_set` is the genuine subset-or-equal test
`set & self == self` (every bit of `self` is set in `set`); a marker's
`in_set` is the same subset test against its single-bit constant; and
materializing a combinator into a container loses the combinator's
OR-of-parts behaviour. -/
theorem C4_container_marker_in_set_is_subset_test :
    (∀ v s : Nat, in_set (.container v) s = (s &&& v == v))
  ∧ (∀ v s : Nat, in_set (.container v) s = true ↔
        ∀ k, v.testBit k = true → s.testBit k = true)
  ∧ (∀ i s : Nat, in_set (.marker i) s = in_set (.container (flagConst i)) s)
  ∧ in_set (.container (to_set (.or Red Green))) (to_set Red) = false
  ∧ in_set (.or Red Green) (to_set Red) = true := by
  refine ⟨fun v s => rfl, fun v s => ?_, fun i s => rfl, by decide, by decide⟩
  simp only [in_set, beq_iff_eq]
  exact land_eq_right_iff s v

/-- C4 witness: the subset characterization applied to the container `3`
inside the container `7`. -/
theorem C4_container_marker_in_set_is_subset_test_witness :
    Nat.testBit 7 0 = true :=
  (C4_container_marker_in_set_is_subset_test.2.1 3 7).mp (by decide) 0 (by decide)

/-- C5: `and_set` is the bitwise union `self.to_set() | other.to_set()`
for every pair of members, despite the name suggesting intersection
(at `Red`, `Green` the union is `3` while the intersection is `0`). -/
theorem C5_and_set_is_union :
    (∀ self other : Member, and_set self other = to_set self ||| to_set other)
  ∧ and_set Red Green = 3
  ∧ to_set Red &&& to_set Green = 0 :=
  ⟨fun _ _ => rfl, by decide, by decide⟩

/-- C6: the `tlbf!` accumulator pairs the `i`-th declared flag with index
`i` (sequential from 0), each constant is the single-bit value `1 << i`,
so all flag constants are distinct and distinct markers compare unequal;
`Red`, `Green`, `Blue` get bits 0, 1, 2. -/
theorem C6_sequential_distinct_single_bit_flags :
    (∀ names : List String, ∀ i : Nat,
        (assignIndices names 0)[i]? = names[i]?.map (fun x => (x, i)))
  ∧ (∀ i : Nat, flagConst i = 2 ^ i)
  ∧ (∀ i j : Nat, i ≠ j → flagConst i ≠ flagConst j)
  ∧ (∀ i j : Nat, i ≠ j → marker_eq i (.marker j) = false)
  ∧ flagConst 0 = 1 ∧ flagConst 1 = 2 ∧ flagConst 2 = 4 := by
  have hne : ∀ i j : Nat, i ≠ j → flagConst i ≠ flagConst j := by
    intro i j hij he
    rw [flagConst_eq_pow, flagConst_eq_pow] at he
    exact hij (Nat.pow_right_injective (le_refl 2) he)
  refine ⟨fun names i => ?_, flagConst_eq_pow, hne, fun i j hij => ?_,
    by decide, by decide, by decide⟩
  · rw [assignIndices_get names 0 i]
    simp
  · simp only [marker_eq, to_set, beq_eq_false_iff_ne, ne_eq]
    exact hne i j hij

/-- C6 witness: applied at `Red` (index 0) and `Green` (index 1). -/
theorem C6_sequential_distinct_single_bit_flags_witness :
    flagConst 0 ≠ flagConst 1 ∧ marker_eq 0 (.marker 1) = false :=
  ⟨C6_sequential_distinct_single_bit_flags.2.2.1 0 1 (by decide),
   C6_sequential_distinct_single_bit_flags.2.2.2.1 0 1 (by decide)⟩

/-- C7: `all()` — the `|`-reduction of the `n` declared flag constants —
has exactly the first `n` bits set, and contains every declared flag
marker; for the three-flag `Color` group it is `Red|Green|Blue`. -/
theorem C7_all_is_union_of_all_flags :
    (∀ n k : Nat, (all n).testBit k = true ↔ k < n)
  ∧ (∀ n i : Nat, i < n → contains (all n) (.marker i) = true)
  ∧ all 3 = (flagConst 0 ||| flagConst 1 ||| flagConst 2) := by
  refine ⟨fun n k => ?_, fun n i h => ?_, by decide⟩
  · rw [all_testBit]
    simp
  · simp only [contains, in_set, flagConst_eq_pow, land_pow_beq, all_testBit]
    simpa using h

/-- C7 witness: `Green` (index 1) is contained in `all` of the three-flag
group. -/
theorem C7_all_is_union_of_all_flags_witness :
    contains (all 3) (.marker 1) = true :=
  C7_all_is_union_of_all_flags.2.1 3 1 (by decide)

/-- C8: the single-expression branch of `tyflags!` returns the expression
unchanged, but the two-or-more branch expands to
`$crate::Or<$first, $crate::type_join!(rest)>`, and `type_join` is not
among the macro names the crate defines, so the expansion is an
unresolvable macro call rather than the right-associated `Or` nesting the
spec describes (modelled by `tyflags_spec`). -/
theorem C8_tyflags_multi_calls_undefined_name :
    tyflags_expand [.arg 0] = some (.arg 0)
  ∧ tyflags_expand [.arg 0, .arg 1]
      = some (.orOf (.arg 0) (.call "type_join" [.arg 1]))
  ∧ "type_join" ∉ crateExportNames
  ∧ tyflags_spec [.arg 0, .arg 1] = some (.orOf (.arg 0) (.arg 1))
  ∧ tyflags_expand [.arg 0, .arg 1] ≠ tyflags_spec [.arg 0, .arg 1] := by
  refine ⟨rfl, rfl, by decide, rfl, fun h => ?_⟩
  simp [tyflags_expand, tyflags_spec] at h

/-- C9: the value-level bitwise-or is commutative at the
materialized-container level for every pair of members that implement it
as a left operand (containers and markers; `Or` has no such impl), and in
particular `Red | Green` and `Green | Red` produce the same container. -/
theorem C9_bitor_commutative_on_materialized_containers :
    (∀ x y : Member, isOr x = false → isOr y = false →
        bitOrMember x y = bitOrMember y x)
  ∧ marker_bitor 0 (.marker 1) = marker_bitor 1 (.marker 0) := by
  refine ⟨fun x y hx hy => ?_, by decide⟩
  cases x with
  | or a b => simp [isOr] at hx
  | container v =>
    cases y with
    | or a b => simp [isOr] at hy
    | container w =>
      simp [bitOrMember, bitor, marker_bitor, to_set, Nat.lor_comm v w]
    | marker j =>
      simp [bitOrMember, bitor, marker_bitor, to_set,
        Nat.lor_comm v (flagConst j)]
  | marker i =>
    cases y with
    | or a b => simp [isOr] at hy
    | container w =>
      simp [bitOrMember, bitor, marker_bitor, to_set,
        Nat.lor_comm (flagConst i) w]
    | marker j =>
      simp [bitOrMember, bitor, marker_bitor, to_set,
        Nat.lor_comm (flagConst i) (flagConst j)]

/-- C9 witness: commutativity applied to the container `5` and the marker
`Green`. -/
theorem C9_bitor_commutative_on_materialized_containers_witness :
    bitOrMember (Member.container 5) Green = bitOrMember Green (Member.container 5) :=
  C9_bitor_commutative_on_materialized_containers.1 (Member.container 5) Green
    (by decide) (by decide)

/-- C10: every container bitwise operation (`&`, `|`, `^` and the
assigning forms) first materializes its right-hand member with `to_set()`
and then applies the integer operation, so replacing the member by the
container holding its materialized value never changes the result. -/
theorem C10_ops_invariant_under_materialization :
    ∀ c : Nat, ∀ m : Member,
      bitand c m = c &&& to_set m
    ∧ bitor c m = c ||| to_set m
    ∧ bitxor c m = c ^^^ to_set m
    ∧ bitand c m = bitand c (.container (to_set m))
    ∧ bitor c m = bitor c (.container (to_set m))
    ∧ bitxor c m = bitxor c (.container (to_set m))
    ∧ bitand_assign c m = bitand_assign c (.container (to_set m))
    ∧ bitor_assign c m = bitor_assign c (.container (to_set m))
    ∧ bitxor_assign c m = bitxor_assign c (.container (to_set m)) :=
  fun _ _ => ⟨rfl, rfl, rfl, rfl, rfl, rfl, rfl, rfl, rfl⟩

end Tlbf
